import Mathlib

/-! Verification of the DB-IP CSV importer (src/scripts/dbip-to-psql.py).

The development shallowly embeds the importer: characters and strings are
Lean Char and String values, machine addresses are Nat with explicit
bounds, fallible operations (list indexing, IP parsing) return Option, and
the database is an explicit state threaded through the run loop.  The range
expander (the external netaddr library) and the single-line CSV reader
(the Python csv module) are modelled from their documented behaviour as
restated by the specification; everything else is translated directly
from the source file.
-/

namespace DbipImport

/-! Characters used by the importer, named to keep literals in one place -/

/-- The newline character stripped by rstrip at source line 246. -/
def nlChar : Char := Char.ofNat 10

/-- The double-quote character, csv quotechar at source line 247. -/
def dqChar : Char := Char.ofNat 34

/-- The single-quote (apostrophe) character removed at source line 246. -/
def sqChar : Char := Char.ofNat 39

/-- The comma delimiter used by the csv reader at source line 247. -/
def commaChar : Char := Char.ofNat 44

/-- The dot character used by the address-family heuristic at source line 249. -/
def dotChar : Char := Char.ofNat 46

/-! Range expander

Modelled from the spec: netaddr.iprange_to_cidrs, called at source line 248,
is an external library whose code is not part of this repository.  Section 4.1
of the spec describes it as the classical greedy range-to-CIDR decomposition:
repeatedly emit the largest power-of-two-aligned block that starts at the
current address and does not exceed the remaining range. -/

/-- Largest exponent k with k ≤ w such that 2^k divides s (w for s = 0). -/
def alignExp : Nat → Nat → Nat
  | 0, _ => 0
  | w+1, s => if s % 2^(w+1) = 0 then w+1 else alignExp w s

/-- Fuelled floor of the base-2 logarithm. -/
def log2Fuel : Nat → Nat → Nat
  | 0, _ => 0
  | fuel+1, n => if n ≤ 1 then 0 else log2Fuel fuel (n / 2) + 1

/-- Floor of the base-2 logarithm (0 at 0). -/
def lg (n : Nat) : Nat := log2Fuel n n

/-- Exponent of the greedy block chosen at address s for range end e in a
w-bit space: bounded by the alignment of s and by the remaining length. -/
def blockExp (w s e : Nat) : Nat := min (alignExp w s) (lg (e + 1 - s))

/-- Fuelled greedy range-to-CIDR decomposition over a w-bit space.  Each
emitted pair (base, p) denotes the CIDR block of prefix length p, covering
addresses base to base + 2^(w-p) - 1. -/
def rangeToCidrsFuel : Nat → Nat → Nat → Nat → List (Nat × Nat)
  | 0, _, _, _ => []
  | fuel+1, w, s, e =>
    if e < s then []
    else
      let k := blockExp w s e
      (s, w - k) :: rangeToCidrsFuel fuel w (s + 2^k) e

/-- Modelled from the spec: the greedy range-to-CIDR decomposition performed
by netaddr.iprange_to_cidrs (source line 248) on an inclusive address range
of a w-bit address space. -/
def rangeToCidrs (w s e : Nat) : List (Nat × Nat) :=
  rangeToCidrsFuel (e + 1 - s) w s e

/-! Facts about alignExp and lg -/

theorem alignExp_le (w s : Nat) : alignExp w s ≤ w := by
  induction w with
  | zero => simp [alignExp]
  | succ w ih =>
    unfold alignExp
    split
    · exact Nat.le_refl _
    · exact Nat.le_trans ih (Nat.le_succ w)

theorem alignExp_dvd (w s : Nat) : 2 ^ alignExp w s ∣ s := by
  induction w with
  | zero => simp [alignExp]
  | succ w ih =>
    unfold alignExp
    split
    · next h => exact Nat.dvd_iff_mod_eq_zero.mpr h
    · exact ih

theorem le_alignExp (w s k : Nat) (hk : k ≤ w) (hdvd : 2 ^ k ∣ s) :
    k ≤ alignExp w s := by
  induction w with
  | zero => simp only [alignExp]; omega
  | succ w ih =>
    unfold alignExp
    split
    · exact hk
    · next h =>
      rcases Nat.lt_or_ge k (w+1) with hlt | hge
      · exact ih (Nat.lt_succ_iff.mp hlt)
      · exfalso
        have hkeq : k = w + 1 := Nat.le_antisymm hk hge
        exact h (Nat.dvd_iff_mod_eq_zero.mp (hkeq ▸ hdvd))

theorem log2Fuel_bounds (fuel : Nat) :
    ∀ n, n ≤ fuel → 1 ≤ n → 2 ^ log2Fuel fuel n ≤ n ∧ n < 2 ^ (log2Fuel fuel n + 1) := by
  induction fuel with
  | zero => intro n hn h1; omega
  | succ fuel ih =>
    intro n hn h1
    unfold log2Fuel
    split
    · next h => constructor <;> simpa using by omega
    · next h =>
      have h2 : 2 ≤ n := by omega
      have hrec := ih (n / 2) (by omega) (Nat.one_le_div_iff (by decide) |>.mpr h2)
      rcases hrec with ⟨hlo, hhi⟩
      constructor
      · calc 2 ^ (log2Fuel fuel (n / 2) + 1) = 2 * 2 ^ log2Fuel fuel (n / 2) := by ring
        _ ≤ 2 * (n / 2) := by omega
        _ ≤ n := Nat.mul_div_le n 2
      · have : n / 2 + 1 ≤ 2 ^ (log2Fuel fuel (n / 2) + 1) := hhi
        have h4 : n < 2 * (n / 2) + 2 := by omega
        calc n < 2 * (n / 2) + 2 := h4
        _ ≤ 2 * 2 ^ (log2Fuel fuel (n / 2) + 1) := by omega
        _ = 2 ^ (log2Fuel fuel (n / 2) + 1 + 1) := by ring

theorem lg_bounds (n : Nat) (h1 : 1 ≤ n) : 2 ^ lg n ≤ n ∧ n < 2 ^ (lg n + 1) :=
  log2Fuel_bounds n n (Nat.le_refl n) h1

theorem le_lg (n k : Nat) (h : 2 ^ k ≤ n) : k ≤ lg n := by
  have h1 : 1 ≤ n := Nat.le_trans (Nat.one_le_two_pow) h
  rcases lg_bounds n h1 with ⟨_, hhi⟩
  by_contra hlt
  push_neg at hlt
  have : 2 ^ (lg n + 1) ≤ 2 ^ k := Nat.pow_le_pow_right (by decide) hlt
  omega

theorem blockExp_le_w (w s e : Nat) : blockExp w s e ≤ w :=
  Nat.le_trans (Nat.min_le_left _ _) (alignExp_le w s)

theorem blockExp_dvd (w s e : Nat) : 2 ^ blockExp w s e ∣ s :=
  Nat.dvd_trans (pow_dvd_pow 2 (Nat.min_le_left _ _)) (alignExp_dvd w s)

theorem blockExp_size (w s e : Nat) (h : s ≤ e) : 2 ^ blockExp w s e ≤ e + 1 - s := by
  have h1 : 1 ≤ e + 1 - s := by omega
  calc 2 ^ blockExp w s e ≤ 2 ^ lg (e + 1 - s) :=
        Nat.pow_le_pow_right (by decide) (Nat.min_le_right _ _)
    _ ≤ e + 1 - s := (lg_bounds _ h1).1

theorem rangeToCidrsFuel_cover (w : Nat) : ∀ fuel s e, e + 1 - s ≤ fuel →
    ∀ x, (s ≤ x ∧ x ≤ e) ↔
      ∃ b ∈ rangeToCidrsFuel fuel w s e, b.1 ≤ x ∧ x < b.1 + 2 ^ (w - b.2) := by
  intro fuel
  induction fuel with
  | zero =>
    intro s e hf x
    simp only [rangeToCidrsFuel, List.not_mem_nil, false_and, exists_false, iff_false]
    omega
  | succ fuel ih =>
    intro s e hf x
    by_cases hse : e < s
    · simp only [rangeToCidrsFuel, if_pos hse, List.not_mem_nil, false_and, exists_false,
        iff_false]
      omega
    · have hs : s ≤ e := by omega
      have hk1 : 1 ≤ 2 ^ blockExp w s e := Nat.one_le_two_pow
      have hk2 : 2 ^ blockExp w s e ≤ e + 1 - s := blockExp_size w s e hs
      have hkw : w - (w - blockExp w s e) = blockExp w s e :=
        Nat.sub_sub_self (blockExp_le_w w s e)
      have hrec := ih (s + 2 ^ blockExp w s e) e (by omega) x
      simp only [rangeToCidrsFuel, if_neg hse, List.mem_cons]
      constructor
      · rintro ⟨h1, h2⟩
        by_cases hx : x < s + 2 ^ blockExp w s e
        · exact ⟨(s, w - blockExp w s e), Or.inl rfl, by simpa [hkw] using And.intro h1 hx⟩
        · obtain ⟨b, hb, hbx⟩ := hrec.mp ⟨by omega, h2⟩
          exact ⟨b, Or.inr hb, hbx⟩
      · rintro ⟨b, hb | hb, hbx⟩
        · subst hb
          simp only [hkw] at hbx
          omega
        · have := hrec.mpr ⟨b, hb, hbx⟩
          omega

theorem rangeToCidrsFuel_bounds (w : Nat) : ∀ fuel s e b, e + 1 - s ≤ fuel →
    b ∈ rangeToCidrsFuel fuel w s e →
    s ≤ b.1 ∧ b.1 + 2 ^ (w - b.2) ≤ e + 1 ∧ b.2 ≤ w ∧ 2 ^ (w - b.2) ∣ b.1 := by
  intro fuel
  induction fuel with
  | zero => intro s e b hf hb; simp [rangeToCidrsFuel] at hb
  | succ fuel ih =>
    intro s e b hf hb
    by_cases hse : e < s
    · simp [rangeToCidrsFuel, if_pos hse] at hb
    · have hs : s ≤ e := by omega
      have hk1 : 1 ≤ 2 ^ blockExp w s e := Nat.one_le_two_pow
      have hk2 : 2 ^ blockExp w s e ≤ e + 1 - s := blockExp_size w s e hs
      have hkw : w - (w - blockExp w s e) = blockExp w s e :=
        Nat.sub_sub_self (blockExp_le_w w s e)
      simp only [rangeToCidrsFuel, if_neg hse, List.mem_cons] at hb
      rcases hb with hb | hb
      · subst hb
        refine ⟨Nat.le_refl _, ?_, by simp [Nat.sub_le], ?_⟩
        · simp only [hkw]; omega
        · simp only [hkw]; exact blockExp_dvd w s e
      · have hrec := ih (s + 2 ^ blockExp w s e) e b (by omega) hb
        exact ⟨by omega, hrec.2.1, hrec.2.2.1, hrec.2.2.2⟩

theorem rangeToCidrsFuel_pairwise (w : Nat) : ∀ fuel s e, e + 1 - s ≤ fuel →
    (rangeToCidrsFuel fuel w s e).Pairwise
      (fun b1 b2 => b1.1 + 2 ^ (w - b1.2) ≤ b2.1) := by
  intro fuel
  induction fuel with
  | zero => intro s e hf; simp [rangeToCidrsFuel]
  | succ fuel ih =>
    intro s e hf
    by_cases hse : e < s
    · simp [rangeToCidrsFuel, if_pos hse]
    · have hs : s ≤ e := by omega
      have hk1 : 1 ≤ 2 ^ blockExp w s e := Nat.one_le_two_pow
      have hkw : w - (w - blockExp w s e) = blockExp w s e :=
        Nat.sub_sub_self (blockExp_le_w w s e)
      simp only [rangeToCidrsFuel, if_neg hse]
      refine List.Pairwise.cons ?_ (ih (s + 2 ^ blockExp w s e) e (by omega))
      intro b hb
      have hbb := rangeToCidrsFuel_bounds w fuel (s + 2 ^ blockExp w s e) e b (by omega) hb
      simp only [hkw]
      omega

/-- Two adjacent CIDR blocks of a w-bit space can be merged into one valid
CIDR exactly when they share a prefix length p with 0 < p, the second starts
where the first ends, and the first is aligned for the halved prefix p - 1. -/
def mergeable (w : Nat) (b1 b2 : Nat × Nat) : Prop :=
  b1.2 = b2.2 ∧ 0 < b1.2 ∧ b2.1 = b1.1 + 2 ^ (w - b1.2) ∧ 2 ^ (w - b1.2 + 1) ∣ b1.1

theorem rangeToCidrsFuel_minimal (w : Nat) : ∀ fuel s e, e + 1 - s ≤ fuel →
    (rangeToCidrsFuel fuel w s e).Chain' (fun b1 b2 => ¬ mergeable w b1 b2) := by
  intro fuel
  induction fuel with
  | zero => intro s e hf; simp [rangeToCidrsFuel]
  | succ fuel ih =>
    intro s e hf
    by_cases hse : e < s
    · simp [rangeToCidrsFuel, if_pos hse]
    · have hs : s ≤ e := by omega
      have hk1 : 1 ≤ 2 ^ blockExp w s e := Nat.one_le_two_pow
      have hk2 : 2 ^ blockExp w s e ≤ e + 1 - s := blockExp_size w s e hs
      have hkle : blockExp w s e ≤ w := blockExp_le_w w s e
      have hkw : w - (w - blockExp w s e) = blockExp w s e := Nat.sub_sub_self hkle
      simp only [rangeToCidrsFuel, if_neg hse]
      rw [List.chain'_cons']
      refine ⟨?_, ih (s + 2 ^ blockExp w s e) e (by omega)⟩
      intro y hy
      cases fuel with
      | zero => simp [rangeToCidrsFuel] at hy
      | succ fuel2 =>
        by_cases hse2 : e < s + 2 ^ blockExp w s e
        · simp [rangeToCidrsFuel, if_pos hse2] at hy
        · have hy2 : y = (s + 2 ^ blockExp w s e,
              w - blockExp w (s + 2 ^ blockExp w s e) e) := by
            simp only [rangeToCidrsFuel, if_neg hse2, List.head?_cons,
              Option.mem_def, Option.some.injEq] at hy
            exact hy.symm
          subst hy2
          simp only [mergeable, Prod.fst, Prod.snd, hkw]
          rintro ⟨hp, hppos, -, halign⟩
          have hk2le : blockExp w (s + 2 ^ blockExp w s e) e ≤ w :=
            blockExp_le_w w _ e
          have hkk : blockExp w s e = blockExp w (s + 2 ^ blockExp w s e) e := by
            omega
          have halign2 : 2 ^ (blockExp w s e + 1) ∣ s := halign
          have h1 : blockExp w s e + 1 ≤ alignExp w s :=
            le_alignExp w s _ (by omega) halign2
          have hsz2 : 2 ^ blockExp w (s + 2 ^ blockExp w s e) e ≤
              e + 1 - (s + 2 ^ blockExp w s e) :=
            blockExp_size w _ e (by omega)
          have h3 : 2 ^ (blockExp w s e + 1) ≤ e + 1 - s := by
            rw [pow_succ]
            rw [← hkk] at hsz2
            omega
          have h4 : blockExp w s e + 1 ≤ lg (e + 1 - s) := le_lg _ _ h3
          have : blockExp w s e + 1 ≤ blockExp w s e :=
            Nat.le_min.mpr ⟨h1, h4⟩
          omega

/-- C1: for every w-bit address range with start ≤ end (both IPv4, w = 32,
and IPv6, w = 128, are instances), the range expander emits an ordered
sequence of CIDR blocks whose union is exactly the inclusive integer range
[start, end]; the blocks are pairwise non-overlapping (each ends at or
before the next begins), every block is a valid CIDR of the w-bit space
(prefix length at most w, base aligned to the block size, block contained
in the space), and the decomposition is minimal: no two adjacent emitted
blocks can be merged into one valid CIDR. -/
theorem c1_range_expander_correct (w s e : Nat) (hse : s ≤ e) (hew : e < 2 ^ w) :
    (∀ x, (s ≤ x ∧ x ≤ e) ↔
        ∃ b ∈ rangeToCidrs w s e, b.1 ≤ x ∧ x < b.1 + 2 ^ (w - b.2)) ∧
    (rangeToCidrs w s e).Pairwise (fun b1 b2 => b1.1 + 2 ^ (w - b1.2) ≤ b2.1) ∧
    (∀ b ∈ rangeToCidrs w s e,
        b.2 ≤ w ∧ 2 ^ (w - b.2) ∣ b.1 ∧ b.1 + 2 ^ (w - b.2) ≤ 2 ^ w) ∧
    (rangeToCidrs w s e).Chain' (fun b1 b2 => ¬ mergeable w b1 b2) := by
  have hf : e + 1 - s ≤ e + 1 - s := Nat.le_refl _
  refine ⟨rangeToCidrsFuel_cover w _ s e hf, rangeToCidrsFuel_pairwise w _ s e hf,
    ?_, rangeToCidrsFuel_minimal w _ s e hf⟩
  intro b hb
  have hbb := rangeToCidrsFuel_bounds w _ s e b hf hb
  exact ⟨hbb.2.2.1, hbb.2.2.2, by omega⟩

/-- Witness for C1 at the concrete IPv4 range 18 .. 20 (w = 32). -/
theorem c1_range_expander_correct_witness :
    ((18 : Nat) ≤ 20 ∧ (20 : Nat) < 2 ^ 32) ∧
    ((∀ x, (18 ≤ x ∧ x ≤ 20) ↔
        ∃ b ∈ rangeToCidrs 32 18 20, b.1 ≤ x ∧ x < b.1 + 2 ^ (32 - b.2)) ∧
    (rangeToCidrs 32 18 20).Pairwise (fun b1 b2 => b1.1 + 2 ^ (32 - b1.2) ≤ b2.1) ∧
    (∀ b ∈ rangeToCidrs 32 18 20,
        b.2 ≤ 32 ∧ 2 ^ (32 - b.2) ∣ b.1 ∧ b.1 + 2 ^ (32 - b.2) ≤ 2 ^ 32) ∧
    (rangeToCidrs 32 18 20).Chain' (fun b1 b2 => ¬ mergeable 32 b1 b2)) :=
  ⟨⟨by decide, by decide⟩, c1_range_expander_correct 32 18 20 (by decide) (by decide)⟩

/-! Line preprocessing and CSV parsing

Source line 246: stripped_line = line.rstrip(newline).replace(quote, empty),
i.e. trailing newlines are dropped and every single-quote character of the
whole line is removed before any CSV parsing.
Source line 247: the stripped line is parsed by csv.reader with delimiter
comma and quotechar double-quote; the Python csv module is an external
library, modelled here from its documented single-line behaviour. -/

/-- Drop every trailing newline character, as Python rstrip does at source
line 246. -/
def stripTrailingNewlines (s : String) : String :=
  String.mk ((s.data.reverse.dropWhile (fun c => c = nlChar)).reverse)

/-- Remove every single-quote character of the line, as the replace call at
source line 246 does. -/
def removeSingleQuotes (s : String) : String :=
  String.mk (s.data.filter (fun c => c ≠ sqChar))

/-- States of the single-line CSV field scanner. -/
inductive CsvState where
  | fieldStart
  | unquoted
  | quoted
  | quoteEnd
deriving DecidableEq

/-- Modelled from the spec: single-line field splitting of the Python csv
reader (source line 247) with delimiter comma, quotechar double-quote and
doubled-quote escaping.  cur is the field being accumulated and done the
fields already finished. -/
def csvFields : CsvState → List Char → List (List Char) → List Char → List (List Char)
  | _, cur, done, [] => done ++ [cur]
  | .fieldStart, cur, done, c :: rest =>
    if c = dqChar then csvFields .quoted cur done rest
    else if c = commaChar then csvFields .fieldStart [] (done ++ [cur]) rest
    else csvFields .unquoted (cur ++ [c]) done rest
  | .unquoted, cur, done, c :: rest =>
    if c = commaChar then csvFields .fieldStart [] (done ++ [cur]) rest
    else csvFields .unquoted (cur ++ [c]) done rest
  | .quoted, cur, done, c :: rest =>
    if c = dqChar then csvFields .quoteEnd cur done rest
    else csvFields .quoted (cur ++ [c]) done rest
  | .quoteEnd, cur, done, c :: rest =>
    if c = dqChar then csvFields .quoted (cur ++ [c]) done rest
    else if c = commaChar then csvFields .fieldStart [] (done ++ [cur]) rest
    else csvFields .unquoted (cur ++ [c]) done rest

/-- Modelled from the spec: list(csv.reader([stripped_line]))[0] at source
line 247.  The reader yields no row for an empty line, in which case the
indexing by [0] of the source raises, modelled as none. -/
def csvParseLine (s : String) : Option (List String) :=
  if s.data = [] then none
  else some ((csvFields .fieldStart [] [] s.data).map String.mk)

/-- The permissive text decoding encode(ascii, ignore).decode(ascii) at
source lines 260-261: every character outside the ASCII range (code points
128 and above) is silently dropped; no input can make it fail. -/
def asciiIgnore (s : String) : String :=
  String.mk (s.data.filter (fun c => c.toNat < 128))

/-! Geo Rows and per-record expansion -/

/-- One row of the bulk insert: the value tuple formatted into sql_values at
source lines 258-264, in the column order family, ip, city, stateprov,
country, latitude, longitude, timezone_offset, timezone_name, isp_name of
the INSERT at source lines 230-231. -/
structure GeoRow where
  family : Nat
  network : String
  city : String
  stateprov : String
  country : String
  latitude : String
  longitude : String
  tzOffset : Int
  tzName : String
  ispName : String
deriving DecidableEq

/-- Construction of the Geo Row for one CIDR of ip_list: source lines
258-264.  The text fields are read at indices 5 (city), 4 (stateprov),
3 (country), 6 (latitude), 7 (longitude) of the parsed record, in the
evaluation order of the source; a missing index is the IndexError of the
source, modelled as none.  The trailing constants 0, UTC and the empty
isp_name come from source line 264. -/
def rowOfFields (family : Nat) (r : List String) (ip : String) : Option GeoRow :=
  (r.get? 5).bind fun city =>
  (r.get? 4).bind fun sp =>
  (r.get? 3).bind fun country =>
  (r.get? 6).bind fun lat =>
  (r.get? 7).bind fun lon =>
  some { family := family, network := ip, city := asciiIgnore city,
         stateprov := asciiIgnore sp, country := country, latitude := lat,
         longitude := lon, tzOffset := 0, tzName := "UTC", ispName := "" }

/-- The for loop over ip_list at source lines 254-265: one Geo Row per CIDR,
in order; the first failing row construction aborts the record, as the
IndexError does in the source. -/
def rowsLoop (family : Nat) (r : List String) : List String → Option (List GeoRow)
  | [] => some []
  | ip :: rest =>
    (rowOfFields family r ip).bind fun row =>
    (rowsLoop family r rest).bind fun rows =>
    some (row :: rows)

/-- Expansion of one parsed record into Geo Rows: the addr_type heuristic of
source line 249 (family 4 exactly when the first field contains a literal
dot) followed by the loop over ip_list at source lines 254-265. -/
def expandRecord (r0 : String) (r : List String) (cidrs : List String) :
    Option (List GeoRow) :=
  let family := if r0.data.any (fun c => c = dotChar) then 4 else 6
  rowsLoop family r cidrs

/-! IPv4 parsing and CIDR formatting

Modelled from the spec: netaddr parses the start and end IP strings and
formats each emitted CIDR back to text (source line 248 and the loop
variable ip at line 258).  Only the IPv4 side is modelled; an unparsable
address is the AddrFormatError of the library, modelled as none. -/

/-- Parse a nonempty all-digit string as a decimal number. -/
def parseDecimal (s : String) : Option Nat :=
  if s.data ≠ [] ∧ s.data.all (fun c => c.isDigit) then
    some (s.data.foldl (fun n c => n * 10 + (c.toNat - 48)) 0)
  else none

/-- Parse a dotted-quad IPv4 address string to its 32-bit value. -/
def parseIPv4 (s : String) : Option Nat :=
  match (s.data.splitOn dotChar).map String.mk with
  | [a, b, c, d] => do
    let na ← parseDecimal a
    let nb ← parseDecimal b
    let nc ← parseDecimal c
    let nd ← parseDecimal d
    if na < 256 ∧ nb < 256 ∧ nc < 256 ∧ nd < 256 then
      some (((na * 256 + nb) * 256 + nc) * 256 + nd)
    else none
  | _ => none

/-- Dotted-quad rendering of a 32-bit address value. -/
def formatIPv4 (n : Nat) : String :=
  Nat.repr (n / 16777216 % 256) ++ String.singleton dotChar ++
    Nat.repr (n / 65536 % 256) ++ String.singleton dotChar ++
    Nat.repr (n / 256 % 256) ++ String.singleton dotChar ++ Nat.repr (n % 256)

/-- Textual form of one emitted CIDR block, as str of an IPNetwork. -/
def cidrString (b : Nat × Nat) : String :=
  formatIPv4 b.1 ++ String.singleton (Char.ofNat 47) ++ Nat.repr b.2

/-- Modelled from the spec: the full netaddr.iprange_to_cidrs call for IPv4,
including the input constraint of the spec that a reversed range (start greater
than end) is an error. -/
def ipRangeToCidrStrings (s e : Nat) : Option (List String) :=
  if e < s then none else some ((rangeToCidrs 32 s e).map cidrString)

/-- Processing of one input line of the read loop, source lines 246-265:
strip and de-quote the line, parse it as CSV, read the start and end IP at
indices 0 and 1, expand the range, and build one Geo Row per CIDR.  Any
step that raises in the source is none here. -/
def processLine (line : String) : Option (List GeoRow) :=
  (csvParseLine (removeSingleQuotes (stripTrailingNewlines line))).bind fun r =>
  (r.get? 0).bind fun r0 =>
  (r.get? 1).bind fun r1 =>
  (parseIPv4 r0).bind fun s =>
  (parseIPv4 r1).bind fun e =>
  (ipRangeToCidrStrings s e).bind fun cidrs =>
  expandRecord r0 r cidrs

/-- The concrete scenario line of the spec, with its seven fields. -/
def scenarioLine7 : String := "1.1.1.18,1.1.1.20,US,CA,\"Example City\",37.0,-122.0"

/-- The scenario line in the eight-field DB-IP Lite layout the source
actually reads (a continent code occupies the third field). -/
def scenarioLine8 : String := "1.1.1.18,1.1.1.20,OC,US,CA,\"Example City\",37.0,-122.0"

/-- Unpacking of a successful row construction: the source indices and the
constant trailer uniquely determine the row. -/
theorem rowOfFields_spec (family : Nat) (r : List String) (ip : String) (row : GeoRow)
    (h : rowOfFields family r ip = some row) :
    ∃ city sp country lat lon,
      r.get? 5 = some city ∧ r.get? 4 = some sp ∧ r.get? 3 = some country ∧
      r.get? 6 = some lat ∧ r.get? 7 = some lon ∧
      row = { family := family, network := ip, city := asciiIgnore city,
              stateprov := asciiIgnore sp, country := country, latitude := lat,
              longitude := lon, tzOffset := 0, tzName := "UTC", ispName := "" } := by
  simp only [rowOfFields, Option.bind_eq_some, Option.some.injEq] at h
  obtain ⟨city, h5, sp, h4, country, h3, lat, h6, lon, h7, hrow⟩ := h
  exact ⟨city, sp, country, lat, lon, h5, h4, h3, h6, h7, hrow.symm⟩

/-- Every row of a successful record expansion comes from one CIDR of the
list via rowOfFields. -/
theorem rowsLoop_mem (family : Nat) (r : List String) :
    ∀ cidrs rows, rowsLoop family r cidrs = some rows →
      ∀ row ∈ rows, ∃ ip ∈ cidrs, rowOfFields family r ip = some row := by
  intro cidrs
  induction cidrs with
  | nil =>
    intro rows h row hrow
    simp only [rowsLoop, Option.some.injEq] at h
    subst h
    simp at hrow
  | cons ip rest ih =>
    intro rows h row hrow
    simp only [rowsLoop, Option.bind_eq_some, Option.some.injEq] at h
    obtain ⟨row0, hrow0, rows2, hrows2, hr⟩ := h
    subst hr
    rcases List.mem_cons.mp hrow with h | h
    · subst h; exact ⟨ip, by simp, hrow0⟩
    · obtain ⟨ip2, hip2, hres⟩ := ih rows2 hrows2 row h
      exact ⟨ip2, by simp [hip2], hres⟩

/-- C2 counterexample: the seven-field scenario line of the claim produces
no Geo Rows at all.  The source reads the record at indices 3 (country),
4 (stateprov), 5 (city), 6 (latitude) and 7 (longitude), so on this line
city would be the text 37.0 and the access r[7] raises IndexError; the
run of processLine is none, not two rows with city Example City. -/
theorem c2_counterexample : processLine scenarioLine7 = none := by decide

/-- C2 amended: the importer reads the DB-IP Lite eight-field layout, with
the third field skipped (continent): country is the fourth field, stateprov
the fifth, city the sixth, latitude the seventh, longitude the eighth, and
further trailing fields are ignored; a record with fewer than eight fields
fails with an index error.  The scenario line extended with a continent
field produces two Geo Rows with city Example City, networks 1.1.1.18/31
and 1.1.1.20/32, both of address family 4. -/
theorem c2_field_order_amended :
    (∀ (f0 f1 f2 f3 f4 f5 f6 f7 : String) (rest : List String)
        (family : Nat) (ip : String),
      rowOfFields family ([f0, f1, f2, f3, f4, f5, f6, f7] ++ rest) ip =
        some { family := family, network := ip, city := asciiIgnore f5,
               stateprov := asciiIgnore f4, country := f3, latitude := f6,
               longitude := f7, tzOffset := 0, tzName := "UTC", ispName := "" }) ∧
    (processLine scenarioLine8).map (fun l => l.map (fun row => row.city)) =
        some ["Example City", "Example City"] ∧
    (processLine scenarioLine8).map (fun l => l.map (fun row => row.network)) =
        some ["1.1.1.18/31", "1.1.1.20/32"] ∧
    (processLine scenarioLine8).map (fun l => l.map (fun row => row.family)) =
        some [4, 4] :=
  ⟨fun _ _ _ _ _ _ _ _ _ _ _ => rfl, by decide, by decide, by decide⟩

/-- C7: every Geo Row expanded from a record carries address family 4 if
the first field of the record contains an ASCII dot and 6 otherwise; the
first field is never parsed as an address for this classification, so the
fact holds for arbitrary (even unparsable) first fields. -/
theorem c7_family_by_dot (r0 : String) (r : List String) (cidrs : List String)
    (rows : List GeoRow) (h : expandRecord r0 r cidrs = some rows) :
    ∀ row ∈ rows, row.family = if r0.data.any (fun c => c = dotChar) then 4 else 6 := by
  intro row hrow
  simp only [expandRecord] at h
  obtain ⟨ip, _, hres⟩ := rowsLoop_mem _ r cidrs rows h row hrow
  obtain ⟨city, sp, country, lat, lon, -, -, -, -, -, hrow2⟩ :=
    rowOfFields_spec _ r ip row hres
  rw [hrow2]

/-- An unparsable first field containing a dot, for the C7 witness. -/
def c7r0 : String := "not.an.ip"

/-- A record in the eight-field layout, for the C7 and C8 witnesses. -/
def c7r : List String :=
  ["ignored", "ignored", "x", "US", "CA", "Sample", "1.0", "2.0"]

/-- A one-element CIDR list for the C7 witness. -/
def c7cidrs : List String := ["anycidr"]

/-- The rows the C7 witness record expands to. -/
def c7rows : List GeoRow :=
  [{ family := 4, network := "anycidr", city := "Sample", stateprov := "CA",
     country := "US", latitude := "1.0", longitude := "2.0", tzOffset := 0,
     tzName := "UTC", ispName := "" }]

/-- Witness for C7 at a concrete record whose first field is not a valid
address but contains a dot. -/
theorem c7_family_by_dot_witness :
    expandRecord c7r0 c7r c7cidrs = some c7rows ∧
    ∀ row ∈ c7rows,
      row.family = if c7r0.data.any (fun c => c = dotChar) then 4 else 6 :=
  ⟨by decide, c7_family_by_dot c7r0 c7r c7cidrs c7rows (by decide)⟩

/-- Minimal necessary reading of the claim that the source tag is a string
identifying this importer: an identifying tag is at least nonempty. -/
def identifiesImporter (s : String) : Prop := s ≠ ""

/-- C8 counterexample: the isp_name column written by the importer is the
empty string (source line 264 appends the constant trailer with empty
isp_name), so the persisted source tag identifies nothing; on the concrete
scenario record both produced rows carry the empty tag. -/
theorem c8_counterexample :
    (processLine scenarioLine8).map (fun l => l.map (fun row => row.ispName)) =
      some ["", ""] ∧ ¬ identifiesImporter ("") :=
  ⟨by decide, fun h => h rfl⟩

/-- C8 amended: every Geo Row produced by the pipeline has timezone_offset
fixed to the integer 0, timezone_name fixed to the string UTC, and
source_tag (the isp_name column) fixed to the empty string. -/
theorem c8_fixed_trailer_fields (family : Nat) (r : List String) (ip : String)
    (row : GeoRow) (h : rowOfFields family r ip = some row) :
    row.tzOffset = 0 ∧ row.tzName = "UTC" ∧ row.ispName = "" := by
  obtain ⟨city, sp, country, lat, lon, -, -, -, -, -, hrow⟩ :=
    rowOfFields_spec family r ip row h
  rw [hrow]
  exact ⟨rfl, rfl, rfl⟩

/-- The row built by the C8 witness. -/
def c8row : GeoRow :=
  { family := 6, network := "cafe::/127", city := "Sample", stateprov := "CA",
    country := "US", latitude := "1.0", longitude := "2.0", tzOffset := 0,
    tzName := "UTC", ispName := "" }

/-- Witness for C8 on a concrete row construction. -/
theorem c8_fixed_trailer_fields_witness :
    rowOfFields 6 c7r ("cafe::/127") = some c8row ∧
    (c8row.tzOffset = 0 ∧ c8row.tzName = "UTC" ∧ c8row.ispName = "") :=
  ⟨by decide, c8_fixed_trailer_fields 6 c7r ("cafe::/127") c8row (by decide)⟩

/-- C9: the city and stateprov fields written to the Geo Row are the input
fields with every character outside the ASCII range silently dropped, and
the construction succeeds for arbitrary input text in those fields: the
permissive decoding can never fail. -/
theorem c9_ascii_lossy_decode (f0 f1 f2 f3 f4 f5 f6 f7 : String)
    (rest : List String) (family : Nat) (ip : String) :
    ∃ row, rowOfFields family ([f0, f1, f2, f3, f4, f5, f6, f7] ++ rest) ip =
        some row ∧
      row.city.data = f5.data.filter (fun c => c.toNat < 128) ∧
      row.stateprov.data = f4.data.filter (fun c => c.toNat < 128) :=
  ⟨_, rfl, rfl, rfl⟩

/-! Character provenance lemmas for C10 -/

theorem csvFields_chars (P : Char → Prop) :
    ∀ (input : List Char) (st : CsvState) (cur : List Char) (done : List (List Char)),
      (∀ f ∈ done, ∀ c ∈ f, P c) → (∀ c ∈ cur, P c) → (∀ c ∈ input, P c) →
      ∀ f ∈ csvFields st cur done input, ∀ c ∈ f, P c := by
  intro input
  induction input with
  | nil =>
    intro st cur done hdone hcur _ f hf c hc
    have hf2 : f ∈ done ++ [cur] := by cases st <;> simpa [csvFields] using hf
    rcases List.mem_append.mp hf2 with h | h
    · exact hdone f h c hc
    · exact hcur c (List.mem_singleton.mp h ▸ hc)
  | cons a rest ih =>
    intro st cur done hdone hcur hin f hf c hc
    have ha : P a := hin a (List.mem_cons_self a rest)
    have hin2 : ∀ c ∈ rest, P c := fun c hc => hin c (List.mem_cons_of_mem a hc)
    have hcur2 : ∀ c ∈ cur ++ [a], P c := by
      intro c hc
      rcases List.mem_append.mp hc with h | h
      · exact hcur c h
      · exact (List.mem_singleton.mp h) ▸ ha
    have hdone2 : ∀ f ∈ done ++ [cur], ∀ c ∈ f, P c := by
      intro f hf c hc
      rcases List.mem_append.mp hf with h | h
      · exact hdone f h c hc
      · exact hcur c (List.mem_singleton.mp h ▸ hc)
    have hnil : ∀ c ∈ ([] : List Char), P c := by intro c hc; cases hc
    cases st with
    | fieldStart =>
      simp only [csvFields] at hf
      by_cases h1 : a = dqChar
      · rw [if_pos h1] at hf
        exact ih _ _ _ hdone hcur hin2 f hf c hc
      · rw [if_neg h1] at hf
        by_cases h2 : a = commaChar
        · rw [if_pos h2] at hf
          exact ih _ _ _ hdone2 hnil hin2 f hf c hc
        · rw [if_neg h2] at hf
          exact ih _ _ _ hdone hcur2 hin2 f hf c hc
    | unquoted =>
      simp only [csvFields] at hf
      by_cases h2 : a = commaChar
      · rw [if_pos h2] at hf
        exact ih _ _ _ hdone2 hnil hin2 f hf c hc
      · rw [if_neg h2] at hf
        exact ih _ _ _ hdone hcur2 hin2 f hf c hc
    | quoted =>
      simp only [csvFields] at hf
      by_cases h1 : a = dqChar
      · rw [if_pos h1] at hf
        exact ih _ _ _ hdone hcur hin2 f hf c hc
      · rw [if_neg h1] at hf
        exact ih _ _ _ hdone hcur2 hin2 f hf c hc
    | quoteEnd =>
      simp only [csvFields] at hf
      by_cases h1 : a = dqChar
      · rw [if_pos h1] at hf
        exact ih _ _ _ hdone hcur2 hin2 f hf c hc
      · rw [if_neg h1] at hf
        by_cases h2 : a = commaChar
        · rw [if_pos h2] at hf
          exact ih _ _ _ hdone2 hnil hin2 f hf c hc
        · rw [if_neg h2] at hf
          exact ih _ _ _ hdone hcur2 hin2 f hf c hc

theorem csvParseLine_chars (P : Char → Prop) (s : String) (r : List String)
    (h : csvParseLine s = some r) (hs : ∀ c ∈ s.data, P c) :
    ∀ field ∈ r, ∀ c ∈ field.data, P c := by
  unfold csvParseLine at h
  by_cases hd : s.data = []
  · rw [if_pos hd] at h; cases h
  · rw [if_neg hd] at h
    have hr : r = (csvFields .fieldStart [] [] s.data).map String.mk :=
      (Option.some.inj h).symm
    subst hr
    intro field hf c hc
    obtain ⟨f, hfmem, hfeq⟩ := List.mem_map.mp hf
    have hnil : ∀ c ∈ ([] : List Char), P c := by intro c hc; cases hc
    have hnil2 : ∀ g ∈ ([] : List (List Char)), ∀ c ∈ g, P c := by
      intro g hg; cases hg
    have := csvFields_chars P s.data .fieldStart [] [] hnil2 hnil hs f hfmem
    exact this c (by rw [← hfeq] at hc; exact hc)

theorem removeSingleQuotes_chars (s : String) :
    ∀ c ∈ (removeSingleQuotes s).data, c ≠ sqChar := by
  intro c hc
  simp only [removeSingleQuotes] at hc
  rcases List.mem_filter.mp hc with ⟨-, hp⟩
  simpa using hp

theorem asciiIgnore_subset (s : String) :
    ∀ c ∈ (asciiIgnore s).data, c ∈ s.data := by
  intro c hc
  simp only [asciiIgnore] at hc
  exact (List.mem_filter.mp hc).1

theorem toDigitsCore_chars (P : Char → Prop) (hP : ∀ d, d < 10 → P (Nat.digitChar d)) :
    ∀ (fuel n : Nat) (ds : List Char), (∀ c ∈ ds, P c) →
      ∀ c ∈ Nat.toDigitsCore 10 fuel n ds, P c := by
  intro fuel
  induction fuel with
  | zero =>
    intro n ds hds c hc
    simpa [Nat.toDigitsCore] using hds c hc
  | succ fuel ih =>
    intro n ds hds c hc
    have hd : P (Nat.digitChar (n % 10)) := hP _ (Nat.mod_lt _ (by decide))
    have hds2 : ∀ c ∈ Nat.digitChar (n % 10) :: ds, P c := by
      intro c hc
      rcases List.mem_cons.mp hc with h | h
      · exact h ▸ hd
      · exact hds c h
    simp only [Nat.toDigitsCore] at hc
    by_cases h0 : n / 10 = 0
    · rw [if_pos h0] at hc
      exact hds2 c hc
    · rw [if_neg h0] at hc
      exact ih (n / 10) _ hds2 c hc

theorem repr_chars (P : Char → Prop) (hP : ∀ d, d < 10 → P (Nat.digitChar d))
    (n : Nat) : ∀ c ∈ (Nat.repr n).data, P c := by
  intro c hc
  have hc2 : c ∈ Nat.toDigitsCore 10 (n + 1) n [] := by
    simpa [Nat.repr, Nat.toDigits, List.asString] using hc
  have hnil : ∀ c ∈ ([] : List Char), P c := by intro c hc; cases hc
  exact toDigitsCore_chars P hP (n + 1) n [] hnil c hc2

theorem repr_no_sq (n : Nat) : ∀ c ∈ (Nat.repr n).data, c ≠ sqChar :=
  repr_chars (fun c => c ≠ sqChar) (by decide) n

theorem data_append (s t : String) : (s ++ t).data = s.data ++ t.data := rfl

theorem data_singleton (ch : Char) : (String.singleton ch).data = [ch] := rfl

theorem append_chars (P : Char → Prop) (s t : String)
    (hs : ∀ c ∈ s.data, P c) (ht : ∀ c ∈ t.data, P c) :
    ∀ c ∈ (s ++ t).data, P c := by
  intro c hc
  rw [data_append] at hc
  rcases List.mem_append.mp hc with h | h
  · exact hs c h
  · exact ht c h

theorem singleton_chars (P : Char → Prop) (ch : Char) (h : P ch) :
    ∀ c ∈ (String.singleton ch).data, P c := by
  intro c hc
  rw [data_singleton] at hc
  exact List.mem_singleton.mp hc ▸ h

theorem formatIPv4_no_sq (n : Nat) : ∀ c ∈ (formatIPv4 n).data, c ≠ sqChar :=
  append_chars _ _ _
    (append_chars _ _ _
      (append_chars _ _ _
        (append_chars _ _ _
          (append_chars _ _ _
            (append_chars _ _ _ (repr_no_sq _)
              (singleton_chars _ _ (by decide)))
            (repr_no_sq _))
          (singleton_chars _ _ (by decide)))
        (repr_no_sq _))
      (singleton_chars _ _ (by decide)))
    (repr_no_sq _)

theorem cidrString_no_sq (b : Nat × Nat) :
    ∀ c ∈ (cidrString b).data, c ≠ sqChar :=
  append_chars _ _ _
    (append_chars _ _ _ (formatIPv4_no_sq _) (singleton_chars _ _ (by decide)))
    (repr_no_sq _)

/-- C10: source line 246 removes every single-quote character from the whole
input line before CSV parsing; consequently no field of any generated Geo
Row, the network, country, latitude and longitude included, ever contains a
single-quote character, and any apostrophe in the source data is silently
lost. -/
theorem c10_no_single_quote_invariant :
    (∀ line : String, ∀ c ∈ (removeSingleQuotes line).data, c ≠ sqChar) ∧
    (∀ line rows, processLine line = some rows → ∀ row ∈ rows,
      (∀ c ∈ row.network.data, c ≠ sqChar) ∧ (∀ c ∈ row.city.data, c ≠ sqChar) ∧
      (∀ c ∈ row.stateprov.data, c ≠ sqChar) ∧
      (∀ c ∈ row.country.data, c ≠ sqChar) ∧
      (∀ c ∈ row.latitude.data, c ≠ sqChar) ∧
      (∀ c ∈ row.longitude.data, c ≠ sqChar) ∧
      (∀ c ∈ row.tzName.data, c ≠ sqChar) ∧
      (∀ c ∈ row.ispName.data, c ≠ sqChar)) := by
  refine ⟨removeSingleQuotes_chars, ?_⟩
  intro line rows h row hrow
  simp only [processLine, Option.bind_eq_some] at h
  obtain ⟨r, hr, r0, hr0, r1, hr1, ns, hns, nend, hnend, cidrs, hcidrs, hexp⟩ := h
  have hfields : ∀ field ∈ r, ∀ c ∈ field.data, c ≠ sqChar :=
    csvParseLine_chars _ _ r hr
      (removeSingleQuotes_chars (stripTrailingNewlines line))
  have hcidr : ∀ ip ∈ cidrs, ∀ c ∈ ip.data, c ≠ sqChar := by
    simp only [ipRangeToCidrStrings] at hcidrs
    by_cases hrg : nend < ns
    · rw [if_pos hrg] at hcidrs; cases hcidrs
    · rw [if_neg hrg] at hcidrs
      have : cidrs = (rangeToCidrs 32 ns nend).map cidrString :=
        (Option.some.inj hcidrs).symm
      subst this
      intro ip hip
      obtain ⟨b, -, hbeq⟩ := List.mem_map.mp hip
      exact hbeq ▸ cidrString_no_sq b
  simp only [expandRecord] at hexp
  obtain ⟨ip, hip, hres⟩ := rowsLoop_mem _ r cidrs rows hexp row hrow
  obtain ⟨city, sp, country, lat, lon, h5, h4, h3, h6, h7, hrow2⟩ :=
    rowOfFields_spec _ r ip row hres
  subst hrow2
  have hUTC : ∀ c ∈ ("UTC" : String).data, c ≠ sqChar := by decide
  have hEmpty : ∀ c ∈ ("" : String).data, c ≠ sqChar := by intro c hc; cases hc
  refine ⟨hcidr ip hip, ?_, ?_, hfields country (List.get?_mem h3),
    hfields lat (List.get?_mem h6), hfields lon (List.get?_mem h7),
    hUTC, hEmpty⟩
  · intro c hc
    exact hfields city (List.get?_mem h5) c (asciiIgnore_subset city c hc)
  · intro c hc
    exact hfields sp (List.get?_mem h4) c (asciiIgnore_subset sp c hc)

/-- A concrete input line with apostrophes in the stateprov, city and
latitude fields, for the C10 witness. -/
def c10Line : String :=
  "1.1.1.18,1.1.1.18,OC,US,C" ++ String.singleton sqChar ++ "A,O" ++
    String.singleton sqChar ++ "Brien,3" ++ String.singleton sqChar ++
    "7.0,-122.0"

/-- The single row the C10 witness line produces: every apostrophe of the
source data is gone, also in the latitude field. -/
def c10rows : List GeoRow :=
  [{ family := 4, network := "1.1.1.18/32", city := "OBrien", stateprov := "CA",
     country := "US", latitude := "37.0", longitude := "-122.0", tzOffset := 0,
     tzName := "UTC", ispName := "" }]

/-- Witness for C10 on the concrete apostrophe-laced line. -/
theorem c10_no_single_quote_invariant_witness :
    processLine c10Line = some c10rows ∧
    ∀ row ∈ c10rows,
      (∀ c ∈ row.network.data, c ≠ sqChar) ∧ (∀ c ∈ row.city.data, c ≠ sqChar) ∧
      (∀ c ∈ row.stateprov.data, c ≠ sqChar) ∧
      (∀ c ∈ row.country.data, c ≠ sqChar) ∧
      (∀ c ∈ row.latitude.data, c ≠ sqChar) ∧
      (∀ c ∈ row.longitude.data, c ≠ sqChar) ∧
      (∀ c ∈ row.tzName.data, c ≠ sqChar) ∧
      (∀ c ∈ row.ispName.data, c ≠ sqChar) :=
  ⟨by decide, fun row hrow =>
    c10_no_single_quote_invariant.2 c10Line c10rows (by decide) row hrow⟩

/-! Table semantics of the upsert statement

The geo_ip table is keyed by the ip (network) column.  The statement built
at source lines 230-235 is INSERT ... VALUES ... ON CONFLICT (ip) DO UPDATE
SET city=excluded.city, stateprov=excluded.stateprov, country=
excluded.country, latitude=excluded.latitude, longitude=excluded.longitude.
Its relational semantics per inserted row is embedded below. -/

/-- The persisted table, keyed by the network text. -/
def Table := String → Option GeoRow

/-- Effect of one inserted row at its own key: a fresh key receives the
whole row; a conflicting existing row keeps family, timezone_offset,
timezone_name and isp_name and takes the five geographic fields from the
excluded (new) row, exactly the SET list of source lines 233-235. -/
def upsertAt (old : Option GeoRow) (r : GeoRow) : GeoRow :=
  match old with
  | none => r
  | some e =>
    { e with
      city := r.city,
      stateprov := r.stateprov,
      country := r.country,
      latitude := r.latitude,
      longitude := r.longitude }

/-- Effect of one inserted row on the table: only the network key of the row is
touched. -/
def upsertRow (t : Table) (r : GeoRow) : Table :=
  fun k => if k = r.network then some (upsertAt (t r.network) r) else t k

/-- Semantics of one executed bulk statement over its rows, in order. -/
def applyRows (t : Table) (rows : List GeoRow) : Table :=
  rows.foldl upsertRow t

/-- C3: for every row of a flushed statement, the conflict target is the
network key: every other key of the table is untouched; and on conflict
only city, stateprov, country, latitude and longitude are overwritten from
the new row, while address family, timezone_offset, timezone_name and the
source tag (isp_name) of the existing row are left unchanged. -/
theorem c3_upsert_conflict_frame (t : Table) (r : GeoRow) (e : GeoRow)
    (h : t r.network = some e) :
    (∀ k, k ≠ r.network → upsertRow t r k = t k) ∧
    ∃ e2, upsertRow t r r.network = some e2 ∧
      e2.family = e.family ∧ e2.tzOffset = e.tzOffset ∧ e2.tzName = e.tzName ∧
      e2.ispName = e.ispName ∧ e2.city = r.city ∧ e2.stateprov = r.stateprov ∧
      e2.country = r.country ∧ e2.latitude = r.latitude ∧
      e2.longitude = r.longitude := by
  constructor
  · intro k hk
    simp [upsertRow, hk]
  · refine ⟨upsertAt (t r.network) r, by simp [upsertRow], ?_⟩
    rw [h]
    exact ⟨rfl, rfl, rfl, rfl, rfl, rfl, rfl, rfl, rfl⟩

/-- The pre-existing row of the C3 witness table, with distinctive values
in every frame field. -/
def c3old : GeoRow :=
  { family := 6, network := "10.0.0.0/8", city := "oldcity", stateprov := "os",
    country := "OC", latitude := "1", longitude := "2", tzOffset := 5,
    tzName := "EST", ispName := "legacy" }

/-- The incoming row of the C3 witness, conflicting on the same network. -/
def c3new : GeoRow :=
  { family := 4, network := "10.0.0.0/8", city := "newcity", stateprov := "ns",
    country := "NC", latitude := "3", longitude := "4", tzOffset := 0,
    tzName := "UTC", ispName := "" }

/-- A one-entry table holding the pre-existing row. -/
def c3table : Table :=
  fun k => if k = "10.0.0.0/8" then some c3old else none

/-- Witness for C3 at the concrete one-entry table. -/
theorem c3_upsert_conflict_frame_witness :
    c3table c3new.network = some c3old ∧
    ((∀ k, k ≠ c3new.network → upsertRow c3table c3new k = c3table k) ∧
     ∃ e2, upsertRow c3table c3new c3new.network = some e2 ∧
       e2.family = c3old.family ∧ e2.tzOffset = c3old.tzOffset ∧
       e2.tzName = c3old.tzName ∧ e2.ispName = c3old.ispName ∧
       e2.city = c3new.city ∧ e2.stateprov = c3new.stateprov ∧
       e2.country = c3new.country ∧ e2.latitude = c3new.latitude ∧
       e2.longitude = c3new.longitude) :=
  ⟨rfl, c3_upsert_conflict_frame c3table c3new c3old rfl⟩

/-! Idempotence of the statement semantics (C6) -/

/-- The five geographic fields of a row, as one tuple. -/
def GeoFields := String × String × String × String × String

/-- The geographic fields of a row. -/
def geoOf (r : GeoRow) : GeoFields :=
  (r.city, r.stateprov, r.country, r.latitude, r.longitude)

/-- Overwrite the geographic fields of a row. -/
def setGeo (e : GeoRow) (g : GeoFields) : GeoRow :=
  { e with
    city := g.1,
    stateprov := g.2.1,
    country := g.2.2.1,
    latitude := g.2.2.2.1,
    longitude := g.2.2.2.2 }

/-- Per-key accumulated upsert. -/
def upsertOpt (o : Option GeoRow) (r : GeoRow) : Option GeoRow :=
  some (upsertAt o r)

/-- Geographic fields after a sequence of conflicting rows: those of the
last row, or the start value for an empty sequence. -/
def lastGeo (g : GeoFields) : List GeoRow → GeoFields
  | [] => g
  | r :: l => lastGeo (geoOf r) l

theorem setGeo_geoOf (e : GeoRow) : setGeo e (geoOf e) = e := rfl

theorem geoOf_setGeo (e : GeoRow) (g : GeoFields) : geoOf (setGeo e g) = g := rfl

theorem setGeo_setGeo (e : GeoRow) (g1 g2 : GeoFields) :
    setGeo (setGeo e g1) g2 = setGeo e g2 := rfl

theorem upsertOpt_some (e : GeoRow) (r : GeoRow) :
    upsertOpt (some e) r = some (setGeo e (geoOf r)) := rfl

theorem foldl_upsertOpt_some (l : List GeoRow) : ∀ e : GeoRow,
    l.foldl upsertOpt (some e) = some (setGeo e (lastGeo (geoOf e) l)) := by
  induction l with
  | nil => intro e; simp [lastGeo, setGeo_geoOf]
  | cons r l ih =>
    intro e
    rw [List.foldl_cons, upsertOpt_some, ih (setGeo e (geoOf r)),
      geoOf_setGeo, setGeo_setGeo]
    rfl

theorem foldl_upsertOpt_idem (l : List GeoRow) (o : Option GeoRow) :
    l.foldl upsertOpt (l.foldl upsertOpt o) = l.foldl upsertOpt o := by
  cases o with
  | some e =>
    rw [foldl_upsertOpt_some l e, foldl_upsertOpt_some l _, geoOf_setGeo,
      setGeo_setGeo]
    congr 1
    congr 1
    cases l with
    | nil => rfl
    | cons r l2 => rfl
  | none =>
    cases l with
    | nil => rfl
    | cons r l2 =>
      have hin : List.foldl upsertOpt none (r :: l2) =
          some (setGeo r (lastGeo (geoOf r) l2)) := by
        rw [List.foldl_cons, show upsertOpt none r = some r from rfl,
          foldl_upsertOpt_some l2 r]
      rw [hin, List.foldl_cons, upsertOpt_some, foldl_upsertOpt_some l2 _,
        geoOf_setGeo, setGeo_setGeo, setGeo_setGeo]

theorem applyRows_lookup (k : String) : ∀ (rows : List GeoRow) (t : Table),
    applyRows t rows k =
      (rows.filter (fun r => r.network = k)).foldl upsertOpt (t k) := by
  intro rows
  induction rows with
  | nil => intro t; rfl
  | cons r rows ih =>
    intro t
    rw [show applyRows t (r :: rows) = applyRows (upsertRow t r) rows from rfl, ih]
    by_cases hk : r.network = k
    · rw [List.filter_cons_of_pos (by simp [hk]), List.foldl_cons]
      congr 1
      simp [upsertRow, hk.symm, upsertOpt]
    · rw [List.filter_cons_of_neg (by simp [hk])]
      congr 1
      simp [upsertRow]
      intro hk2
      exact absurd hk2.symm hk

theorem applyRows_idem (t : Table) (rows : List GeoRow) :
    applyRows (applyRows t rows) rows = applyRows t rows := by
  funext k
  rw [applyRows_lookup k rows, applyRows_lookup k rows]
  exact foldl_upsertOpt_idem _ _

theorem applyRows_append (t : Table) (l1 l2 : List GeoRow) :
    applyRows t (l1 ++ l2) = applyRows (applyRows t l1) l2 :=
  List.foldl_append _ _ _ _

/-! The bulk statement text and the batching run loop

The loop at source lines 244-293 accumulates formatted value tuples in
sql_values and a row counter in count, flushes with db.queryNoResults when
count reaches 5000 after a record, retries a raised flush once, and flushes
the leftover batch at end of input.  Records are modelled by their expanded
row lists; the database is the Table plus an oracle giving the outcome of
each statement execution. -/

/-- The single-quote character as a string, for statement rendering. -/
def sq : String := String.singleton sqChar

/-- The INSERT prefix of the bulk statement, source lines 230-231. -/
def sqlInsert : String :=
  "INSERT INTO geo_ip (family,ip,city,stateprov,country,latitude,longitude,timezone_offset, timezone_name, isp_name) VALUES "

/-- The conflict clause of the bulk statement, source lines 233-235. -/
def sqlConflict : String :=
  " ON CONFLICT (ip) DO UPDATE SET  city=excluded.city, stateprov=excluded.stateprov, country=excluded.country, latitude=excluded.latitude, longitude=excluded.longitude;"

/-- The sql_values chunk of one row, source lines 258-264: the percent
formatting of the value tuple followed by the constant trailer. -/
def renderRow (r : GeoRow) : String :=
  "(" ++ Nat.repr r.family ++ ", " ++ sq ++ r.network ++ sq ++ ", " ++ sq ++
    r.city ++ sq ++ ", " ++ sq ++ r.stateprov ++ sq ++ ", " ++ sq ++
    r.country ++ sq ++ ", " ++ r.latitude ++ ", " ++ r.longitude ++ ",0, " ++
    sq ++ "UTC" ++ sq ++ ", " ++ sq ++ sq ++ ") "

/-- The accumulated sql_values text of a batch: chunks joined by commas,
exactly the effect of the conditional comma at source lines 255-256 with
the per-batch counter. -/
def valuesText (rows : List GeoRow) : String :=
  String.intercalate (",") (rows.map renderRow)

/-- The full statement executed for a batch, source lines 278 and 291. -/
def stmtOf (rows : List GeoRow) : String :=
  sqlInsert ++ valuesText rows ++ sqlConflict

/-- Outcome of one statement execution attempt: success, a ProgrammingError
(caught inside queryNoResults, source lines 199-202), or any other raised
exception (propagates to the caller). -/
inductive Outcome where
  | ok
  | progErr
  | raiseErr
deriving DecidableEq

/-- The trigger of a flush: the 5000-row threshold check at source line 273
or the final leftover-batch flush at source line 287. -/
inductive Trigger where
  | threshold
  | final
deriving DecidableEq

/-- Ghost record of one flush, for stating batching properties: the batch
flushed, the row count before the triggering record and the number of rows
that record contributed (0 for the final flush). -/
structure FlushEvent where
  trigger : Trigger
  prevCount : Nat
  recLen : Nat
  batch : List GeoRow
deriving DecidableEq

/-- The state of the run: the semantic table, the variables sql_values
(as batch rows), count, total_count and line_count of the source, the log
of executed statements with their outcomes, the ghost flush events, and
the oracle of upcoming execution outcomes. -/
structure RunState where
  table : Table
  batch : List GeoRow
  count : Nat
  totalCount : Nat
  lineCount : Nat
  execLog : List (String × Outcome)
  events : List FlushEvent
  oracle : List Outcome

/-- The state at entry of the main loop (source lines 237-242), with the
given starting table and oracle. -/
def initState (t : Table) (orc : List Outcome) : RunState :=
  { table := t, batch := [], count := 0, totalCount := 0, lineCount := 1,
    execLog := [], events := [], oracle := orc }

/-- Pop the next execution outcome; an exhausted oracle means success. -/
def nextOutcome : List Outcome → Outcome × List Outcome
  | [] => (Outcome.ok, [])
  | o :: rest => (o, rest)

/-- One call of db.queryNoResults(statement), source lines 172-202: the
statement is executed and committed; on success its upsert semantics is
applied to the table; a ProgrammingError is caught inside and surfaces only
as a falsy return; any other exception is raised to the caller (second
component true). -/
def queryNoResults (st : RunState) (stmt : String) (rows : List GeoRow) :
    RunState × Bool :=
  let p := nextOutcome st.oracle
  ({ st with
     oracle := p.2,
     execLog := st.execLog ++ [(stmt, p.1)],
     table := if p.1 = Outcome.ok then applyRows st.table rows else st.table },
   decide (p.1 = Outcome.raiseErr))

/-- The try/except flush of source lines 277-281 (and 289-293): execute the
statement; if the call raises, log and execute the identical statement once
more; a second raise propagates (second component true). -/
def flushBatch (st : RunState) : RunState × Bool :=
  let stmt := stmtOf st.batch
  let a1 := queryNoResults st stmt st.batch
  if a1.2 then queryNoResults a1.1 stmt st.batch else a1

/-- Processing of one record inside the while loop, source lines 248-285:
append the rows of the record to the batch, bump count and line_count, and if
count is at least 5000 add count to total_count and flush; on a successful
(non-raising) flush clear the batch and reset count.  The second component
is true when an exception escaped processing of the record. -/
def stepRecord (st : RunState) (rows : List GeoRow) : RunState × Bool :=
  let st1 :=
    { st with
      batch := st.batch ++ rows,
      count := st.count + rows.length,
      lineCount := st.lineCount + 1 }
  if 5000 ≤ st1.count then
    let st2 :=
      { st1 with
        totalCount := st1.totalCount + st1.count,
        events := st1.events ++
          [⟨Trigger.threshold, st.count, rows.length, st1.batch⟩] }
    let fr := flushBatch st2
    if fr.2 then fr
    else ({ fr.1 with batch := [], count := 0 }, false)
  else (st1, false)

/-- The read loop plus the final-batch flush, source lines 244-293: records
are processed in order; a raised exception stops the run, leaving the
remaining records unprocessed (third component); at end of input a
non-empty leftover batch is flushed once more. -/
def runLoop : RunState → List (List GeoRow) → RunState × Bool × List (List GeoRow)
  | st, [] =>
    if st.batch.isEmpty then (st, false, [])
    else
      let st2 :=
        { st with
          totalCount := st.totalCount + st.count,
          events := st.events ++ [⟨Trigger.final, st.count, 0, st.batch⟩] }
      let fr := flushBatch st2
      (fr.1, fr.2, [])
  | st, rows :: rest =>
    let sr := stepRecord st rows
    if sr.2 then (sr.1, true, rest)
    else runLoop sr.1 rest

/-! Facts about the run loop -/

theorem flushBatch_ghost (st : RunState) :
    (flushBatch st).1.events = st.events ∧ (flushBatch st).1.batch = st.batch ∧
    (flushBatch st).1.count = st.count := by
  unfold flushBatch queryNoResults
  dsimp only
  split
  · exact ⟨rfl, rfl, rfl⟩
  · exact ⟨rfl, rfl, rfl⟩

theorem flushBatch_ok (st : RunState) (h : st.oracle = []) :
    (flushBatch st).2 = false ∧ (flushBatch st).1.oracle = [] ∧
    (flushBatch st).1.table = applyRows st.table st.batch ∧
    (flushBatch st).1.execLog = st.execLog ++ [(stmtOf st.batch, Outcome.ok)] := by
  unfold flushBatch queryNoResults
  rw [h]
  simp [nextOutcome]

theorem stepRecord_ok (st : RunState) (rows : List GeoRow) (horc : st.oracle = []) :
    (stepRecord st rows).2 = false ∧
    (stepRecord st rows).1.oracle = [] ∧
    ((5000 ≤ st.count + rows.length ∧
        (stepRecord st rows).1.events =
          st.events ++ [⟨Trigger.threshold, st.count, rows.length, st.batch ++ rows⟩] ∧
        (stepRecord st rows).1.batch = [] ∧ (stepRecord st rows).1.count = 0 ∧
        (stepRecord st rows).1.table = applyRows st.table (st.batch ++ rows)) ∨
     (st.count + rows.length < 5000 ∧
        (stepRecord st rows).1.events = st.events ∧
        (stepRecord st rows).1.batch = st.batch ++ rows ∧
        (stepRecord st rows).1.count = st.count + rows.length ∧
        (stepRecord st rows).1.table = st.table)) := by
  unfold stepRecord
  dsimp only
  by_cases hthr : 5000 ≤ st.count + rows.length
  · rw [if_pos hthr]
    have hfb := flushBatch_ok
      { st with
        batch := st.batch ++ rows,
        count := st.count + rows.length,
        lineCount := st.lineCount + 1,
        totalCount := st.totalCount + (st.count + rows.length),
        events := st.events ++
          [⟨Trigger.threshold, st.count, rows.length, st.batch ++ rows⟩] }
      horc
    have hg := flushBatch_ghost
      { st with
        batch := st.batch ++ rows,
        count := st.count + rows.length,
        lineCount := st.lineCount + 1,
        totalCount := st.totalCount + (st.count + rows.length),
        events := st.events ++
          [⟨Trigger.threshold, st.count, rows.length, st.batch ++ rows⟩] }
    rw [hfb.1]
    exact ⟨rfl, hfb.2.1, Or.inl ⟨hthr, hg.1, rfl, rfl, hfb.2.2.1⟩⟩
  · rw [if_neg hthr]
    exact ⟨rfl, horc, Or.inr ⟨by omega, rfl, rfl, rfl, rfl⟩⟩

theorem runLoop_cons_ok (st : RunState) (rows : List GeoRow)
    (rest : List (List GeoRow)) (h : (stepRecord st rows).2 = false) :
    runLoop st (rows :: rest) = runLoop (stepRecord st rows).1 rest := by
  conv_lhs => rw [runLoop]
  simp [h]

theorem runLoop_nil_ok (st : RunState) (horc : st.oracle = []) :
    (st.batch = [] → runLoop st [] = (st, false, [])) ∧
    (st.batch ≠ [] →
      (runLoop st []).1.events =
        st.events ++ [⟨Trigger.final, st.count, 0, st.batch⟩] ∧
      (runLoop st []).2.1 = false ∧
      (runLoop st []).1.table = applyRows st.table st.batch ∧
      (runLoop st []).1.batch = st.batch ∧
      (runLoop st []).1.execLog =
        st.execLog ++ [(stmtOf st.batch, Outcome.ok)] ∧
      (runLoop st []).2.2 = []) := by
  constructor
  · intro hb
    unfold runLoop
    rw [if_pos (by simp [hb])]
  · intro hb
    unfold runLoop
    rw [if_neg (by simp [hb])]
    have hfb := flushBatch_ok
      { st with
        totalCount := st.totalCount + st.count,
        events := st.events ++ [⟨Trigger.final, st.count, 0, st.batch⟩] }
      horc
    have hg := flushBatch_ghost
      { st with
        totalCount := st.totalCount + st.count,
        events := st.events ++ [⟨Trigger.final, st.count, 0, st.batch⟩] }
    exact ⟨hg.1, hfb.1, hfb.2.2.1, hg.2.1, hfb.2.2.2, rfl⟩

/-- A threshold-triggered flush is sound: it fires at a record boundary, the
count before the triggering record was still below 5000, the count with the
record reaches at least 5000, and the flushed batch holds exactly those
rows. -/
def thresholdEventOk (ev : FlushEvent) : Prop :=
  ev.trigger = Trigger.threshold →
    ev.prevCount < 5000 ∧ 5000 ≤ ev.prevCount + ev.recLen ∧
    ev.batch.length = ev.prevCount + ev.recLen

theorem runLoop_events_ok : ∀ (recs : List (List GeoRow)) (st : RunState),
    st.oracle = [] → st.count = st.batch.length → st.count < 5000 →
    (∀ ev ∈ st.events, thresholdEventOk ev) →
    ∀ ev ∈ (runLoop st recs).1.events, thresholdEventOk ev := by
  intro recs
  induction recs with
  | nil =>
    intro st horc hcnt hlt hev ev hmem
    by_cases hb : st.batch = []
    · rw [(runLoop_nil_ok st horc).1 hb] at hmem
      exact hev ev hmem
    · rw [((runLoop_nil_ok st horc).2 hb).1] at hmem
      rcases List.mem_append.mp hmem with h | h
      · exact hev ev h
      · rw [List.mem_singleton.mp h]
        intro htr
        simp at htr
  | cons rows rest ih =>
    intro st horc hcnt hlt hev ev hmem
    have hs := stepRecord_ok st rows horc
    rw [runLoop_cons_ok st rows rest hs.1] at hmem
    rcases hs.2.2 with ⟨hge, hevs, hb, hc, -⟩ | ⟨hlt2, hevs, hb, hc, -⟩
    · refine ih (stepRecord st rows).1 hs.2.1 (by rw [hc, hb]; rfl)
        (by rw [hc]; omega) ?_ ev hmem
      intro ev2 hmem2
      rw [hevs] at hmem2
      rcases List.mem_append.mp hmem2 with h | h
      · exact hev ev2 h
      · rw [List.mem_singleton.mp h]
        intro _htr
        have hlen := List.length_append st.batch rows
        refine ⟨hlt, hge, ?_⟩
        show (st.batch ++ rows).length = st.count + rows.length
        omega
    · exact ih (stepRecord st rows).1 hs.2.1
        (by rw [hc, hb, List.length_append, hcnt]) (by rw [hc]; omega)
        (by rw [hevs]; exact hev) ev hmem

theorem runLoop_zero_rows : ∀ (recs : List (List GeoRow)) (st : RunState),
    st.oracle = [] → st.batch = [] → st.count = 0 →
    (∀ l ∈ recs, l = ([] : List GeoRow)) →
    (runLoop st recs).1.events = st.events ∧ (runLoop st recs).1.batch = [] ∧
    (runLoop st recs).2.1 = false := by
  intro recs
  induction recs with
  | nil =>
    intro st horc hb hc _
    rw [(runLoop_nil_ok st horc).1 hb]
    exact ⟨rfl, hb, rfl⟩
  | cons rows rest ih =>
    intro st horc hb hc hall
    have hrows : rows = [] := hall rows (by simp)
    subst hrows
    have hs := stepRecord_ok st [] horc
    rw [runLoop_cons_ok st [] rest hs.1]
    rcases hs.2.2 with ⟨hge, -⟩ | ⟨-, hevs, hb2, hc2, -⟩
    · exfalso
      simp only [List.length_nil] at hge
      omega
    · have hres := ih (stepRecord st []).1 hs.2.1
        (by rw [hb2, hb]; rfl) (by rw [hc2, hc]; simp)
        (fun l hl => hall l (by simp [hl]))
      exact ⟨hres.1.trans hevs, hres.2.1, hres.2.2⟩

theorem runLoop_exact_fill : ∀ (recs : List (List GeoRow)) (st : RunState),
    st.oracle = [] → st.count = st.batch.length → st.count < 5000 →
    st.count + (recs.map List.length).sum = 5000 →
    ∃ ev, (runLoop st recs).1.events = st.events ++ [ev] ∧
      ev.trigger = Trigger.threshold ∧ (runLoop st recs).1.batch = [] ∧
      (runLoop st recs).2.1 = false := by
  intro recs
  induction recs with
  | nil =>
    intro st _ _ hlt hsum
    exfalso
    simp only [List.map_nil, List.sum_nil] at hsum
    omega
  | cons rows rest ih =>
    intro st horc hcnt hlt hsum
    have hs := stepRecord_ok st rows horc
    rw [runLoop_cons_ok st rows rest hs.1]
    simp only [List.map_cons, List.sum_cons] at hsum
    rcases hs.2.2 with ⟨hge, hevs, hb, hc, -⟩ | ⟨hlt2, hevs, hb, hc, -⟩
    · have hsum2 : (rest.map List.length).sum = 0 := by omega
      have hall : ∀ l ∈ rest, l = ([] : List GeoRow) := by
        intro l hl
        have hlen : l.length = 0 :=
          (List.sum_eq_zero_iff.mp hsum2) l.length (List.mem_map_of_mem _ hl)
        exact List.length_eq_zero.mp hlen
      have hz := runLoop_zero_rows rest (stepRecord st rows).1 hs.2.1 hb hc hall
      refine ⟨⟨Trigger.threshold, st.count, rows.length, st.batch ++ rows⟩,
        ?_, rfl, hz.2.1, hz.2.2⟩
      rw [hz.1, hevs]
    · obtain ⟨ev, hev2, htr, hbat, hab⟩ := ih (stepRecord st rows).1 hs.2.1
        (by rw [hc, hb, List.length_append, hcnt]) (by rw [hc]; omega)
        (by rw [hc]; omega)
      exact ⟨ev, by rw [hev2, hevs], htr, hbat, hab⟩

theorem runLoop_table : ∀ (recs : List (List GeoRow)) (st : RunState),
    st.oracle = [] →
    (runLoop st recs).1.table = applyRows st.table (st.batch ++ recs.flatten) := by
  intro recs
  induction recs with
  | nil =>
    intro st horc
    by_cases hb : st.batch = []
    · rw [(runLoop_nil_ok st horc).1 hb, hb]
      rfl
    · rw [((runLoop_nil_ok st horc).2 hb).2.2.1, List.flatten_nil, List.append_nil]
  | cons rows rest ih =>
    intro st horc
    have hs := stepRecord_ok st rows horc
    rw [runLoop_cons_ok st rows rest hs.1, ih (stepRecord st rows).1 hs.2.1]
    rcases hs.2.2 with ⟨-, -, hb, -, ht⟩ | ⟨-, -, hb, -, ht⟩
    · rw [hb, ht, List.nil_append, ← applyRows_append, List.flatten_cons,
        ← List.append_assoc]
    · rw [hb, ht, List.flatten_cons, ← List.append_assoc]

/-- C4: with all flushes succeeding, a threshold flush is triggered exactly
when the accumulated row count first reaches or exceeds 5000 at a record
boundary (the count before the triggering record is below 5000, with the
record it is at least 5000, and the flushed batch holds exactly those rows),
and never before; and when the input carries exactly 5000 expanded rows in
total, exactly one flush happens, it is threshold-triggered, the batch ends
empty and no final flush is issued. -/
theorem c4_flush_threshold (recs : List (List GeoRow)) (t : Table) :
    (∀ ev ∈ (runLoop (initState t []) recs).1.events, thresholdEventOk ev) ∧
    ((recs.map List.length).sum = 5000 →
      ∃ ev, (runLoop (initState t []) recs).1.events = [ev] ∧
        ev.trigger = Trigger.threshold ∧
        (runLoop (initState t []) recs).1.batch = [] ∧
        (runLoop (initState t []) recs).2.1 = false) := by
  constructor
  · exact runLoop_events_ok recs (initState t []) rfl rfl
      (show (0 : Nat) < 5000 by decide)
      (fun ev h => absurd h (List.not_mem_nil ev))
  · intro hsum
    obtain ⟨ev, hev, htr, hb, hab⟩ := runLoop_exact_fill recs (initState t []) rfl
      rfl (show (0 : Nat) < 5000 by decide)
      (show (0 : Nat) + (recs.map List.length).sum = 5000 by omega)
    exact ⟨ev, by simpa using hev, htr, hb, hab⟩

/-- A sample Geo Row used by the batching witnesses. -/
def wrow : GeoRow :=
  { family := 4, network := "1.0.0.0/24", city := "c", stateprov := "s",
    country := "US", latitude := "0", longitude := "0", tzOffset := 0,
    tzName := "UTC", ispName := "" }

/-- Witness for C4 on one record of exactly 5000 rows. -/
theorem c4_flush_threshold_witness :
    (([List.replicate 5000 wrow].map List.length).sum = 5000) ∧
    ∃ ev,
      (runLoop (initState (fun _ => none) []) [List.replicate 5000 wrow]).1.events
        = [ev] ∧
      ev.trigger = Trigger.threshold ∧
      (runLoop (initState (fun _ => none) []) [List.replicate 5000 wrow]).1.batch
        = [] ∧
      (runLoop (initState (fun _ => none) []) [List.replicate 5000 wrow]).2.1
        = false :=
  ⟨by simp only [List.map_cons, List.map_nil, List.length_replicate,
      List.sum_cons, List.sum_nil, Nat.add_zero],
   (c4_flush_threshold [List.replicate 5000 wrow] (fun _ => none)).2
    (by simp only [List.map_cons, List.map_nil, List.length_replicate,
      List.sum_cons, List.sum_nil, Nat.add_zero])⟩

/-- C6: running the pipeline a second time over the same records, starting
from the table produced by the first run, leaves the table unchanged: the
statement semantics upserts on the network key and overwrites the
geographic fields instead of inserting a duplicate, so the second run
recreates exactly the table of the first run. -/
theorem c6_pipeline_idempotent (t : Table) (recs : List (List GeoRow)) :
    (runLoop (initState ((runLoop (initState t []) recs).1.table) []) recs).1.table
      = (runLoop (initState t []) recs).1.table := by
  have h1 := runLoop_table recs (initState t []) rfl
  have h2 := runLoop_table recs
    (initState ((runLoop (initState t []) recs).1.table) []) rfl
  rw [h2, h1]
  exact applyRows_idem t ((initState t []).batch ++ recs.flatten)

theorem stepRecord_raised_batch (st : RunState) (rows : List GeoRow)
    (h : (stepRecord st rows).2 = true) :
    (stepRecord st rows).1.batch = st.batch ++ rows := by
  unfold stepRecord at h ⊢
  dsimp only at h ⊢
  by_cases hthr : 5000 ≤ st.count + rows.length
  · rw [if_pos hthr] at h ⊢
    set st2 : RunState :=
      { st with
        batch := st.batch ++ rows,
        count := st.count + rows.length,
        lineCount := st.lineCount + 1,
        totalCount := st.totalCount + (st.count + rows.length),
        events := st.events ++
          [⟨Trigger.threshold, st.count, rows.length, st.batch ++ rows⟩] }
      with hst2
    by_cases hfr : (flushBatch st2).2 = true
    · rw [if_pos hfr]
      exact (flushBatch_ghost st2).2.1
    · rw [if_neg hfr] at h
      simp at h
  · rw [if_neg hthr] at h
    simp at h

/-- C5 amended: a flush whose first execution raises an exception runs the
identical statement exactly once more (two log entries with the same
statement text, nothing further); if the retry also raises, the exception
propagates: the run aborts with the batch still holding the flushed rows
and every remaining record unprocessed.  A flush that fails with a
ProgrammingError, however, is caught inside queryNoResults: it is executed
only once, nothing is retried, no exception reaches the loop, and
processing continues (with the batch subsequently cleared). -/
theorem c5_flush_retry_amended :
    (∀ st : RunState, (nextOutcome st.oracle).1 = Outcome.raiseErr →
      (flushBatch st).1.execLog = st.execLog ++
        [(stmtOf st.batch, Outcome.raiseErr),
         (stmtOf st.batch, (nextOutcome (nextOutcome st.oracle).2).1)] ∧
      (flushBatch st).1.batch = st.batch ∧
      ((nextOutcome (nextOutcome st.oracle).2).1 = Outcome.raiseErr →
        (flushBatch st).2 = true)) ∧
    (∀ st : RunState, (nextOutcome st.oracle).1 = Outcome.progErr →
      (flushBatch st).1.execLog =
        st.execLog ++ [(stmtOf st.batch, Outcome.progErr)] ∧
      (flushBatch st).2 = false) ∧
    (∀ (st : RunState) (rows : List GeoRow) (rest : List (List GeoRow)),
      (stepRecord st rows).2 = true →
      runLoop st (rows :: rest) = ((stepRecord st rows).1, true, rest) ∧
      (stepRecord st rows).1.batch = st.batch ++ rows) := by
  refine ⟨?_, ?_, ?_⟩
  · intro st h1
    unfold flushBatch queryNoResults
    dsimp only
    rw [h1]
    simp [List.append_assoc]
  · intro st h1
    unfold flushBatch queryNoResults
    dsimp only
    rw [h1]
    simp
  · intro st rows rest h
    constructor
    · conv_lhs => rw [runLoop]
      simp [h]
    · exact stepRecord_raised_batch st rows h

theorem stepRecord_progErr (st : RunState) (rows : List GeoRow)
    (horc : st.oracle = [Outcome.progErr])
    (hge : 5000 ≤ st.count + rows.length) :
    (stepRecord st rows).2 = false ∧
    (stepRecord st rows).1.oracle = [] ∧
    (stepRecord st rows).1.batch = [] ∧
    (stepRecord st rows).1.count = 0 ∧
    (stepRecord st rows).1.execLog = st.execLog ++
      [(stmtOf (st.batch ++ rows), Outcome.progErr)] ∧
    (stepRecord st rows).1.events = st.events ++
      [⟨Trigger.threshold, st.count, rows.length, st.batch ++ rows⟩] ∧
    (stepRecord st rows).1.table = st.table := by
  unfold stepRecord flushBatch queryNoResults
  dsimp only
  rw [if_pos hge, horc]
  simp [nextOutcome]

theorem stepRecord_execLog_ok (st : RunState) (rows : List GeoRow)
    (hlt : st.count + rows.length < 5000) :
    (stepRecord st rows).1.execLog = st.execLog := by
  unfold stepRecord
  dsimp only
  rw [if_neg (by omega)]

/-- The records of the C5 counterexample: one record of exactly 5000 rows
followed by a one-row record. -/
def c5recs : List (List GeoRow) := [List.replicate 5000 wrow, [wrow]]

/-- C5 counterexample: with the first execution failing as a
ProgrammingError, the threshold flush of the first record fails (the
statement is not committed) yet it is executed exactly once - no retry;
no failure is surfaced (the run does not abort, no records remain
unprocessed), the batch is cleared, and processing continues through the
second record up to its final flush.  The execution log shows exactly two
executions: the failed threshold statement and the successful final one. -/
theorem c5_counterexample :
    (runLoop (initState (fun _ => none) [Outcome.progErr]) c5recs).2.1 = false ∧
    (runLoop (initState (fun _ => none) [Outcome.progErr]) c5recs).2.2 = [] ∧
    (runLoop (initState (fun _ => none) [Outcome.progErr]) c5recs).1.execLog.map
      Prod.snd = [Outcome.progErr, Outcome.ok] ∧
    (runLoop (initState (fun _ => none) [Outcome.progErr]) c5recs).1.events.map
      (fun ev => ev.trigger) = [Trigger.threshold, Trigger.final] := by
  have h1 := stepRecord_progErr (initState (fun _ => none) [Outcome.progErr])
    (List.replicate 5000 wrow) rfl
    (by simp only [List.length_replicate, initState]; omega)
  obtain ⟨hr1, ho1, hb1, hc1, hl1, he1, -⟩ := h1
  have e1 : runLoop (initState (fun _ => none) [Outcome.progErr]) c5recs =
      runLoop (stepRecord (initState (fun _ => none) [Outcome.progErr])
        (List.replicate 5000 wrow)).1 [[wrow]] := by
    rw [show c5recs = List.replicate 5000 wrow :: [[wrow]] from rfl]
    exact runLoop_cons_ok _ _ _ hr1
  have h2 := stepRecord_ok (stepRecord (initState (fun _ => none)
    [Outcome.progErr]) (List.replicate 5000 wrow)).1 [wrow] ho1
  rcases h2.2.2 with ⟨hge2, -⟩ | ⟨-, hev2, hb2, hc2, -⟩
  · exfalso
    rw [hc1] at hge2
    simp at hge2
  have hl2 := stepRecord_execLog_ok (stepRecord (initState (fun _ => none)
      [Outcome.progErr]) (List.replicate 5000 wrow)).1 [wrow]
    (by rw [hc1]; simp)
  have e2 : runLoop (stepRecord (initState (fun _ => none) [Outcome.progErr])
        (List.replicate 5000 wrow)).1 [[wrow]] =
      runLoop (stepRecord (stepRecord (initState (fun _ => none)
        [Outcome.progErr]) (List.replicate 5000 wrow)).1 [wrow]).1 [] :=
    runLoop_cons_ok _ _ _ h2.1
  have hbat : (stepRecord (stepRecord (initState (fun _ => none)
      [Outcome.progErr]) (List.replicate 5000 wrow)).1 [wrow]).1.batch =
      [wrow] := by
    rw [hb2, hb1]
    rfl
  have hnil := (runLoop_nil_ok (stepRecord (stepRecord (initState (fun _ => none)
      [Outcome.progErr]) (List.replicate 5000 wrow)).1 [wrow]).1 h2.2.1).2
    (by rw [hbat]; simp)
  refine ⟨?_, ?_, ?_, ?_⟩
  · rw [e1, e2]
    exact hnil.2.1
  · rw [e1, e2]
    exact hnil.2.2.2.2.2
  · rw [e1, e2, hnil.2.2.2.2.1, hl2, hl1]
    rfl
  · rw [e1, e2, hnil.1, hev2, he1]
    rfl

/-- A run state about to flush with two raising executions ahead, for the
C5 witness. -/
def c5stA : RunState :=
  { table := fun _ => none, batch := [wrow], count := 1, totalCount := 0,
    lineCount := 1, execLog := [], events := [],
    oracle := [Outcome.raiseErr, Outcome.raiseErr] }

/-- The same state with a single ProgrammingError ahead. -/
def c5stB : RunState := { c5stA with oracle := [Outcome.progErr] }

/-- A state one row short of the threshold with two raising executions
ahead, for the run-abort part of the C5 witness. -/
def c5stC : RunState :=
  { table := fun _ => none, batch := List.replicate 4999 wrow, count := 4999,
    totalCount := 0, lineCount := 1, execLog := [], events := [],
    oracle := [Outcome.raiseErr, Outcome.raiseErr] }

/-- Witness for the amended C5 at concrete states. -/
theorem c5_flush_retry_amended_witness :
    ((flushBatch c5stA).1.execLog = c5stA.execLog ++
        [(stmtOf c5stA.batch, Outcome.raiseErr),
         (stmtOf c5stA.batch, (nextOutcome (nextOutcome c5stA.oracle).2).1)] ∧
      (flushBatch c5stA).1.batch = c5stA.batch ∧
      ((nextOutcome (nextOutcome c5stA.oracle).2).1 = Outcome.raiseErr →
        (flushBatch c5stA).2 = true)) ∧
    ((flushBatch c5stB).1.execLog =
        c5stB.execLog ++ [(stmtOf c5stB.batch, Outcome.progErr)] ∧
      (flushBatch c5stB).2 = false) ∧
    (runLoop c5stC ([wrow] :: [[wrow]]) =
        ((stepRecord c5stC [wrow]).1, true, [[wrow]]) ∧
      (stepRecord c5stC [wrow]).1.batch = c5stC.batch ++ [wrow]) :=
  ⟨c5_flush_retry_amended.1 c5stA rfl,
   c5_flush_retry_amended.2.1 c5stB rfl,
   c5_flush_retry_amended.2.2 c5stC [wrow] [[wrow]] (by decide)⟩

end DbipImport
